import Mathlib

set_option maxRecDepth 100000

/-!
Verification of the natsort core (src/natsort/natsort.py) against its
specification.  The development shallowly embeds the tokenizer, the
safe-mode normalizer, the configuration table and the recursive key
assembler.  Python machine floats are modelled exactly: a finite IEEE-754
binary64 value is a pair (m, u) denoting m * 2^u, and decimal-string
conversion performs correct round-to-nearest-even, as CPython's float()
does.  All computational definitions use only Nat/Int arithmetic so that
concrete instances evaluate inside the kernel; rationals appear only in
proof-level valuations.
-/

namespace Natsort

/-- ASCII digit test, modelling the digit class matched by the numeric
patterns of natsort.py (inputs considered here are ASCII strings). -/
def isDigitC (c : Char) : Bool := 48 ≤ c.toNat && c.toNat ≤ 57

/-- Shape of one of the six compiled patterns of natsort.py:
`sign` - the pattern begins with an optional [-+];
`dot`  - the mantissa may contain a decimal point (float patterns);
`exp`  - the pattern accepts an exponent suffix [eE][-+]?digits. -/
structure NumRegex where
  sign : Bool
  dot : Bool
  exp : Bool
deriving DecidableEq

/-- natsort.py line 31: re.compile of a signed float pattern with exponent. -/
def float_sign_exp_re : NumRegex := ⟨true, true, true⟩

/-- natsort.py line 32: unsigned float pattern with exponent. -/
def float_nosign_exp_re : NumRegex := ⟨false, true, true⟩

/-- natsort.py line 33: signed float pattern without exponent. -/
def float_sign_noexp_re : NumRegex := ⟨true, true, false⟩

/-- natsort.py line 34: unsigned float pattern without exponent. -/
def float_nosign_noexp_re : NumRegex := ⟨false, true, false⟩

/-- natsort.py line 36: unsigned integer pattern. -/
def int_nosign_re : NumRegex := ⟨false, false, false⟩

/-- natsort.py line 37: signed integer pattern. -/
def int_sign_re : NumRegex := ⟨true, false, false⟩

/-- Greedy match of the mantissa sub-pattern at the head of `cs`.
For a float pattern this is a backslash-d-star, an optional dot, then
one or more digits; for an integer pattern (`dot = false`) it is one or
more digits.  Returns the consumed characters and the remainder, `none`
when no match starts here.  The fallback branch when the dot is not
followed by a digit reflects the regex engine backtracking: the optional
dot is dropped and the digit run before it is the whole match. -/
def matchMantissa (dot : Bool) (cs : List Char) : Option (List Char × List Char) :=
  let d1 := cs.takeWhile isDigitC
  let r1 := cs.dropWhile isDigitC
  match dot, r1 with
  | true, '.' :: r2 =>
    let d2 := r2.takeWhile isDigitC
    if d2.isEmpty then
      if d1.isEmpty then none else some (d1, r1)
    else
      some (d1 ++ '.' :: d2, r2.dropWhile isDigitC)
  | _, _ => if d1.isEmpty then none else some (d1, r1)

/-- Greedy match of the optional exponent suffix [eE][-+]?digits at the
head of `cs`; returns the consumed characters (possibly none) and the
remainder. -/
def matchExpPart (cs : List Char) : List Char × List Char :=
  match cs with
  | c :: rest =>
    if c = 'e' ∨ c = 'E' then
      match rest with
      | s :: rest2 =>
        if s = '+' ∨ s = '-' then
          let d := rest2.takeWhile isDigitC
          if d.isEmpty then ([], cs) else (c :: s :: d, rest2.dropWhile isDigitC)
        else
          let d := rest.takeWhile isDigitC
          if d.isEmpty then ([], cs) else (c :: d, rest.dropWhile isDigitC)
      | [] => ([], cs)
    else ([], cs)
  | [] => ([], cs)

/-- Match of the unsigned part of a pattern (mantissa plus optional
exponent when the pattern has one) at the head of `cs`. -/
def matchNoSign (p : NumRegex) (cs : List Char) : Option (List Char × List Char) :=
  match matchMantissa p.dot cs with
  | some (m, r) =>
    if p.exp then
      let (e, r2) := matchExpPart r
      some (m ++ e, r2)
    else some (m, r)
  | none => none

/-- Match of a full pattern at the head of `cs`, i.e. the semantics of
`regex.match` used in natsort.py line 73 and of a match attempt at one
scan position of `regex.split`.  A leading sign is consumed when the
pattern allows one and the rest matches; if the rest fails the whole
position fails, since no pattern body can start at the sign character. -/
def matchAt (p : NumRegex) (cs : List Char) : Option (List Char × List Char) :=
  match p.sign, cs with
  | true, c :: rest =>
    if c = '+' ∨ c = '-' then
      match matchNoSign p rest with
      | some (m, r) => some (c :: m, r)
      | none => none
    else matchNoSign p (c :: rest)
  | _, _ => matchNoSign p cs

/-- Left-to-right scan of `re.split` with one capture group: emit the text
before each match, the match itself, and finally the trailing text.  The
fuel argument only serves structural termination; `regexSplit` supplies
`cs.length`, which is always sufficient because every match consumes at
least one character. -/
def splitGo (p : NumRegex) : Nat → List Char → List Char → List (List Char)
  | _, pre, [] => [pre.reverse]
  | 0, pre, cs => [pre.reverse ++ cs]
  | fuel+1, pre, c :: rest =>
    match matchAt p (c :: rest) with
    | some (m, r) => pre.reverse :: m :: splitGo p fuel [] r
    | none => splitGo p fuel (c :: pre) rest

/-- Semantics of `regex.split(s)` (natsort.py line 65) on the character
list of `s`: alternating unmatched and matched pieces, empty pieces
included, exactly as Python's `re.split` returns them. -/
def regexSplit (p : NumRegex) (cs : List Char) : List (List Char) :=
  splitGo p cs.length [] cs

/-- Exact model of a CPython machine float: a finite binary64 value is
`m * 2^u` with integer mantissa `m` and ulp exponent `u` (not required to
be in canonical form; comparisons are by numeric value), plus the two
infinities that float('1e999') style overflow produces. -/
inductive PyFloat where
  | finite (m : Int) (u : Int)
  | inf
  | ninf
deriving DecidableEq

/-- Value of a digit run, most significant digit first. -/
def digitsToNat (cs : List Char) : Nat :=
  cs.foldl (fun a c => 10 * a + (c.toNat - 48)) 0

/-- Consume an optional leading sign; returns (isNegative, rest). -/
def parseSign : List Char → Bool × List Char
  | c :: r =>
    if c = '-' then (true, r)
    else if c = '+' then (false, r)
    else (false, c :: r)
  | [] => (false, [])

/-- Value of an optional exponent suffix [eE][-+]?digits; 0 when absent. -/
def parseExpChars : List Char → Int
  | c :: rest =>
    if c = 'e' ∨ c = 'E' then
      let (en, r) := parseSign rest
      let d := r.takeWhile isDigitC
      if en then -(digitsToNat d : Int) else (digitsToNat d : Int)
    else 0
  | [] => 0

/-- Decompose a decimal literal of the shape captured by the float
patterns, [-+]? digits* [. digits+]? [[eE][-+]?digits]?, into
(negative, mantissa digits value, fraction length, exponent value);
the denoted rational is (-1)^neg * mant * 10^(exp - scale). -/
def parseFloatChars (cs : List Char) : Bool × Nat × Nat × Int :=
  let (neg, r0) := parseSign cs
  let d1 := r0.takeWhile isDigitC
  let r1 := r0.dropWhile isDigitC
  match r1 with
  | '.' :: r2 =>
    let d2 := r2.takeWhile isDigitC
    (neg, digitsToNat (d1 ++ d2), d2.length, parseExpChars (r2.dropWhile isDigitC))
  | _ => (neg, digitsToNat d1, 0, parseExpChars r1)

/-- Fuelled floor of log2; `natLog2 n` calls it with fuel `n`. -/
def natLog2F : Nat → Nat → Nat
  | 0, _ => 0
  | fuel+1, m => if 2 ≤ m then natLog2F fuel (m / 2) + 1 else 0

/-- Floor of log2 on positive naturals (0 on 0 and 1). -/
def natLog2 (n : Nat) : Nat := natLog2F n n

/-- Decides 2^e ≤ n / d by cross multiplication (d positive). -/
def qle (e : Int) (n d : Nat) : Bool :=
  if 0 ≤ e then 2 ^ e.toNat * d ≤ n else d ≤ 2 ^ (-e).toNat * n

/-- Floor of log2 of the positive rational n / d.  The floor is within
one of the difference of the integer log2s, so one correction step
suffices. -/
def floorLog2Q (n d : Nat) : Int :=
  if qle ((natLog2 n : Int) - (natLog2 d : Int)) n d then
    (natLog2 n : Int) - (natLog2 d : Int)
  else (natLog2 n : Int) - (natLog2 d : Int) - 1

/-- Round the nonnegative rational n / d to the nearest integer, ties to
even (d positive). -/
def rhe (n d : Nat) : Nat :=
  let q := n / d
  let r := n % d
  if 2 * r < d then q
  else if d < 2 * r then q + 1
  else if q % 2 = 0 then q else q + 1

/-- Mantissa and ulp exponent of the binary64 rounding of the positive
rational n / d: the ulp exponent is floor(log2) - 52, floored at the
subnormal ulp -1074, and the mantissa is the round-to-nearest-even
integer multiple of that ulp. -/
def roundPos (n d : Nat) : Nat × Int :=
  let e := floorLog2Q n d
  let u := max (e - 52) (-1074)
  (rhe (n * 2 ^ (-u).toNat) (d * 2 ^ u.toNat), u)

/-- Decides m * 2^u ≥ 2^1024, the binary64 overflow threshold after
rounding. -/
def overflows (m : Nat) (u : Int) : Bool :=
  2 ^ 1024 * 2 ^ (-u).toNat ≤ m * 2 ^ u.toNat

/-- Correctly rounded binary64 value of (-1)^neg * n / d (d positive),
the arithmetic core of CPython's float() conversion. -/
def pyFloatRound (neg : Bool) (n d : Nat) : PyFloat :=
  if n = 0 then .finite 0 0
  else
    let (m, u) := roundPos n d
    if overflows m u then (if neg then .ninf else .inf)
    else .finite (if neg then -(m : Int) else (m : Int)) u

/-- Model of Python float() on a string captured by one of the float
patterns: parse the decimal parts, form the exact rational, round to
binary64. -/
def pyFloatOfChars (cs : List Char) : PyFloat :=
  let (neg, mant, scale, ex) := parseFloatChars cs
  let p : Int := ex - scale
  if 0 ≤ p then pyFloatRound neg (mant * 10 ^ p.toNat) 1
  else pyFloatRound neg mant (10 ^ (-p).toNat)

/-- Model of Python int() on a string captured by one of the integer
patterns, [-+]? digits+. -/
def pyIntOfChars (cs : List Char) : Int :=
  match cs with
  | c :: rest =>
    if c = '-' then -(digitsToNat rest : Int)
    else if c = '+' then (digitsToNat rest : Int)
    else (digitsToNat (c :: rest) : Int)
  | [] => (digitsToNat [] : Int)

/-- Model of Python int() on a string value. -/
def pyIntOfString (s : String) : Int := pyIntOfChars s.data

/-- A Python number as produced by the two conversion functions of the
chooser table: an int or a float. -/
inductive NVal where
  | I (n : Int)
  | F (f : PyFloat)
deriving DecidableEq

/-- One element of a parsed tuple: a string piece or a converted number. -/
inductive Token where
  | text (s : String)
  | num (v : NVal)
deriving DecidableEq

/-- Discriminates number tokens, as `type(x) in set([float, int])` does in
natsort.py line 106. -/
def Token.isNum : Token → Bool
  | .num _ => true
  | .text _ => false

/-- The two number conversion functions stored in the chooser table. -/
inductive NumConv where
  | float
  | int
deriving DecidableEq

/-- Apply a conversion function to a captured piece. -/
def applyConv : NumConv → String → NVal
  | .float, s => .F (pyFloatOfChars s.data)
  | .int, s => .I (pyIntOfChars s.data)

/-- Loop body of `_py3_safe` (natsort.py lines 102-108): walk the
consecutive pairs, inserting an empty string between two numbers, always
appending the second member of the pair. -/
def py3safeGo (before : Token) : List Token → List Token
  | [] => []
  | after :: rest =>
    if before.isNum && after.isNum then
      Token.text "" :: after :: py3safeGo after rest
    else
      after :: py3safeGo after rest

/-- Model of `_py3_safe` (natsort.py lines 94-109): insert an empty text
between two adjacent numbers; lists shorter than two are returned
unchanged. -/
def py3Safe (l : List Token) : List Token :=
  match l with
  | [] => l
  | [_] => l
  | t :: rest => t :: py3safeGo t rest

/-- One step of the list comprehension of natsort.py line 74: a piece
matching the pattern at its start is converted to a number, any other
piece stays a string. -/
def convertPiece (regex : NumRegex) (numconv : NumConv) (x : List Char) : Token :=
  if (matchAt regex x).isSome then Token.num (applyConv numconv (String.mk x))
  else Token.text (String.mk x)

/-- The leading-number guard of natsort.py lines 82-85: when the list
begins with a number, prepend an empty string. -/
def leadGuard (toks : List Token) : List Token :=
  match toks with
  | Token.num _ :: _ => Token.text "" :: toks
  | _ => toks

/-- Model of `_number_finder` (natsort.py lines 59-91): split the string
by the pattern; a single piece (no match) is returned as is; otherwise
empty pieces are dropped, pieces matching the pattern at their start are
converted to numbers (`convertPiece`), an empty text is prepended when
the first token is a number (`leadGuard`), and `_py3_safe` runs when
requested. -/
def numberFinder (s : String) (regex : NumRegex) (numconv : NumConv)
    (py3_safe : Bool) : List Token :=
  if (regexSplit regex s.data).length = 1 then
    (regexSplit regex s.data).map (fun x => Token.text (String.mk x))
  else if py3_safe then
    py3Safe (leadGuard (((regexSplit regex s.data).filter
      (fun x => !x.isEmpty)).map (convertPiece regex numconv)))
  else
    leadGuard (((regexSplit regex s.data).filter
      (fun x => !x.isEmpty)).map (convertPiece regex numconv))

/-- An input value of the key function: a string, a bare number, or a
sequence of values (natsort accepts nested iterables). -/
inductive Value where
  | vstr (s : String)
  | vnum (v : NVal)
  | vseq (l : List Value)

/-- A produced key: a tuple of tokens (from a string or an atomic value)
or a tuple of sub-keys (from a sequence). -/
inductive Key where
  | leaf (toks : List Token)
  | node (ks : List Key)

/-- The `number_type` argument: float, int, None, or some invalid object
carrying its string representation.  `invalid` stands for objects that
compare unequal to all three valid values. -/
inductive NumTypeArg where
  | float
  | int
  | none
  | invalid (repr : String)
deriving DecidableEq

/-- The `signed` / `exp` arguments: True, False, or some invalid object
that compares unequal to both booleans. -/
inductive BoolArg where
  | true
  | false
  | invalid (repr : String)
deriving DecidableEq

/-- The twelve-entry dict `regex_and_num_function_chooser` of natsort.py
lines 39-52, keyed by (number_type, signed, exp). -/
def regex_and_num_function_chooser :
    NumTypeArg → BoolArg → BoolArg → Option (NumRegex × NumConv)
  | .float, .true, .true => some (float_sign_exp_re, .float)
  | .float, .true, .false => some (float_sign_noexp_re, .float)
  | .float, .false, .true => some (float_nosign_exp_re, .float)
  | .float, .false, .false => some (float_nosign_noexp_re, .float)
  | .int, .true, .true => some (int_sign_re, .int)
  | .int, .true, .false => some (int_sign_re, .int)
  | .int, .false, .true => some (int_nosign_re, .int)
  | .int, .false, .false => some (int_nosign_re, .int)
  | .none, .true, .true => some (int_nosign_re, .int)
  | .none, .true, .false => some (int_nosign_re, .int)
  | .none, .false, .true => some (int_nosign_re, .int)
  | .none, .false, .false => some (int_nosign_re, .int)
  | _, _, _ => Option.none

/-- The ValueError raised by `_natsort_key`, tagged with the offending
field and the string representation of the offending value. -/
inductive ConfigError where
  | numberType (repr : String)
  | signed (repr : String)
  | exp (repr : String)
deriving DecidableEq

mutual

/-- The recursive body of `_natsort_key` after the pattern is resolved
(natsort.py lines 155-172): a string is tokenized with `_number_finder`;
an iterable is parsed recursively, the key argument not reapplied; any
other value (a bare number) is returned behind a leading empty string.
The Python code discovers the three cases by catching TypeError twice;
here they are the three constructors of `Value`. -/
def natsortKeyAux (regex : NumRegex) (numconv : NumConv) (py3_safe : Bool) :
    Value → Key
  | .vstr s => .leaf (numberFinder s regex numconv py3_safe)
  | .vseq l => .node (natsortKeyAuxList regex numconv py3_safe l)
  | .vnum v => .leaf [Token.text "", Token.num v]

/-- Element-wise recursion of `_natsort_key` over an iterable input
(natsort.py lines 162-163). -/
def natsortKeyAuxList (regex : NumRegex) (numconv : NumConv) (py3_safe : Bool) :
    List Value → List Key
  | [] => []
  | v :: vs =>
    natsortKeyAux regex numconv py3_safe v ::
      natsortKeyAuxList regex numconv py3_safe vs

end

/-- Model of `_natsort_key` (natsort.py lines 112-172): look up the
pattern for (number_type, signed, exp); on a KeyError report the first
invalid field as a ValueError; otherwise apply the optional key function
to the top-level value and build the key.  The final fall-through arm is
unreachable: the chooser covers every valid triple. -/
def natsortKey (val : Value) (key : Option (Value → Value))
    (number_type : NumTypeArg) (signed : BoolArg) (exp : BoolArg)
    (py3_safe : Bool) : Except ConfigError Key :=
  match regex_and_num_function_chooser number_type signed exp with
  | some (regex, num_function) =>
    let val2 := match key with
      | some f => f val
      | Option.none => val
    .ok (natsortKeyAux regex num_function py3_safe val2)
  | Option.none =>
    match number_type with
    | .invalid r => .error (.numberType r)
    | _ =>
      match signed with
      | .invalid r => .error (.signed r)
      | _ =>
        match exp with
        | .invalid r => .error (.exp r)
        | _ => .error (.exp "unreachable")

/-- Model of `natsort_keygen` (natsort.py lines 368-372): a bare
`partial(_natsort_key, ...)`.  The construction itself can never raise,
which the Except result type records by always being `.ok`; any
configuration checking happens only when the returned function is
applied. -/
def natsortKeygen (key : Option (Value → Value)) (number_type : NumTypeArg)
    (signed : BoolArg) (exp : BoolArg) (py3_safe : Bool) :
    Except ConfigError (Value → Except ConfigError Key) :=
  .ok (fun val => natsortKey val key number_type signed exp py3_safe)

/-- Apply the result of `natsortKeygen` to a value: a construction-time
error would propagate, an ok generator is called. -/
def applyKeygen (g : Except ConfigError (Value → Except ConfigError Key))
    (v : Value) : Except ConfigError Key :=
  match g with
  | .ok f => f v
  | .error e => .error e

/-- Python string comparison: lexicographic on code points. -/
def charListLt : List Char → List Char → Bool
  | [], [] => Bool.false
  | [], _ :: _ => Bool.true
  | _ :: _, [] => Bool.false
  | a :: as, b :: bs =>
    if a.toNat = b.toNat then charListLt as bs else decide (a.toNat < b.toNat)

/-- Numeric comparison of two model floats, scaled to the smaller ulp so
that only integer arithmetic is needed. -/
def pfLtB : PyFloat → PyFloat → Bool
  | .finite m1 u1, .finite m2 u2 =>
    let s := min u1 u2
    decide (m1 * 2 ^ (u1 - s).toNat < m2 * 2 ^ (u2 - s).toNat)
  | .finite _ _, .inf => Bool.true
  | .finite _ _, .ninf => Bool.false
  | .inf, _ => Bool.false
  | .ninf, .ninf => Bool.false
  | .ninf, _ => Bool.true

/-- Numeric equality of two model floats. -/
def pfEqB : PyFloat → PyFloat → Bool
  | .finite m1 u1, .finite m2 u2 =>
    let s := min u1 u2
    decide (m1 * 2 ^ (u1 - s).toNat = m2 * 2 ^ (u2 - s).toNat)
  | .inf, .inf => Bool.true
  | .ninf, .ninf => Bool.true
  | _, _ => Bool.false

/-- Python numeric < across int and float (an int compares exactly, an
int n behaving as the float value n * 2^0). -/
def nvalLt : NVal → NVal → Bool
  | .I a, .I b => decide (a < b)
  | .F x, .F y => pfLtB x y
  | .I a, .F y => pfLtB (.finite a 0) y
  | .F x, .I b => pfLtB x (.finite b 0)

/-- Python numeric == across int and float. -/
def nvalEq : NVal → NVal → Bool
  | .I a, .I b => decide (a = b)
  | .F x, .F y => pfEqB x y
  | .I a, .F y => pfEqB (.finite a 0) y
  | .F x, .I b => pfEqB x (.finite b 0)

/-- Python == on tuple elements: strings by equality, numbers
numerically, a string never equal to a number (no error). -/
def tokEq : Token → Token → Bool
  | .text a, .text b => a == b
  | .num x, .num y => nvalEq x y
  | _, _ => Bool.false

/-- Python < on tuple elements: `none` models the TypeError raised when a
string meets a number (Python 3 unorderable types). -/
def tokLt : Token → Token → Option Bool
  | .text a, .text b => some (charListLt a.data b.data)
  | .num x, .num y => some (nvalLt x y)
  | _, _ => Option.none

/-- Python sequence comparison over tokens: skip equal prefixes with ==,
decide at the first difference with <, a strict prefix is smaller. -/
def tokListLt : List Token → List Token → Option Bool
  | [], [] => some Bool.false
  | [], _ :: _ => some Bool.true
  | _ :: _, [] => some Bool.false
  | a :: as, b :: bs => if tokEq a b then tokListLt as bs else tokLt a b

/-- Element-wise == on token lists of equal length. -/
def tokListEq : List Token → List Token → Bool
  | [], [] => Bool.true
  | a :: as, b :: bs => tokEq a b && tokListEq as bs
  | _, _ => Bool.false

mutual

/-- Python == on whole keys (tuples compare element-wise, a tuple is
never equal to a string or a number). -/
def keyEq : Key → Key → Bool
  | .leaf a, .leaf b => tokListEq a b
  | .node a, .node b => keyListEq a b
  | _, _ => Bool.false

/-- Element-wise == on lists of sub-keys. -/
def keyListEq : List Key → List Key → Bool
  | [], [] => Bool.true
  | a :: as, b :: bs => keyEq a b && keyListEq as bs
  | _, _ => Bool.false

end

mutual

/-- Python < on whole keys: token tuples and key tuples compare
lexicographically; comparing a token tuple with a tuple of sub-keys hits
a TypeError at the first element (`none`). -/
def keyLt : Key → Key → Option Bool
  | .leaf a, .leaf b => tokListLt a b
  | .node a, .node b => keyListLt a b
  | _, _ => Option.none

/-- Python sequence comparison over sub-keys. -/
def keyListLt : List Key → List Key → Option Bool
  | [], [] => some Bool.false
  | [], _ :: _ => some Bool.true
  | _ :: _, [] => some Bool.false
  | a :: as, b :: bs => if keyEq a b then keyListLt as bs else keyLt a b

end

/-- Comparison of two key-generation results: both must have succeeded. -/
def exceptKeyLt (x y : Except ConfigError Key) : Option Bool :=
  match x, y with
  | .ok a, .ok b => keyLt a b
  | _, _ => Option.none

/-- The key of a string under the default configuration of natsort.py
(number_type=float, signed=True, exp=True, py3_safe=False, no key
function). -/
def defaultKeyOf (s : String) : Except ConfigError Key :=
  natsortKey (.vstr s) Option.none .float .true .true Bool.false

/-- The (number_type, signed, exp) triple is one of the twelve valid
combinations: number_type in {float, int, None} and both flags boolean. -/
def validTripleB (nt : NumTypeArg) (sg ex : BoolArg) : Bool :=
  (match nt with
   | .invalid _ => Bool.false
   | _ => Bool.true) &&
  (match sg with
   | .invalid _ => Bool.false
   | _ => Bool.true) &&
  (match ex with
   | .invalid _ => Bool.false
   | _ => Bool.true)

/-- A raised ConfigurationError names the offending field, following the
if/elif chain of natsort.py lines 142-150: number_type is reported first,
then signed, then exp, each carrying the offending value's repr. -/
def errorNamesField (nt : NumTypeArg) (sg ex : BoolArg) :
    Except ConfigError Key → Prop
  | .ok _ => True
  | .error (.numberType r) => nt = .invalid r
  | .error (.signed r) =>
    (match nt with
     | .invalid _ => Bool.false
     | _ => Bool.true) = Bool.true ∧ sg = .invalid r
  | .error (.exp r) =>
    (match nt with
     | .invalid _ => Bool.false
     | _ => Bool.true) = Bool.true ∧
    (match sg with
     | .invalid _ => Bool.false
     | _ => Bool.true) = Bool.true ∧ ex = .invalid r

/-- Number of adjacent Numeric-Numeric pairs in a token sequence. -/
def countAdjNumPairs : List Token → Nat
  | a :: b :: rest =>
    (if a.isNum && b.isNum then 1 else 0) + countAdjNumPairs (b :: rest)
  | _ => 0

/-- No two adjacent tokens are both Numeric. -/
def noAdjNums : List Token → Bool
  | a :: b :: rest => !(a.isNum && b.isNum) && noAdjNums (b :: rest)
  | _ => Bool.true

mutual

/-- The leading-Text invariant on keys, read recursively through nested
keys: a token tuple starts with a Text token, and every sub-key of a
nested key satisfies the invariant. -/
def keyHeadText : Key → Bool
  | .leaf toks =>
    match toks with
    | Token.text _ :: _ => Bool.true
    | _ => Bool.false
  | .node ks => keyHeadTextList ks

/-- The leading-Text invariant on every sub-key of a list. -/
def keyHeadTextList : List Key → Bool
  | [] => Bool.true
  | k :: ks => keyHeadText k && keyHeadTextList ks

end

/-- The string is a decimal representation of an integer: an optional
sign followed by one or more digits. -/
def isIntChars : List Char → Bool
  | [] => Bool.false
  | c :: rest =>
    if c = '+' ∨ c = '-' then !rest.isEmpty && rest.all isDigitC
    else (c :: rest).all isDigitC

/-- Map a fallible function over a list, failing on the first error. -/
def exceptMapList (f : Value → Except ConfigError Key) :
    List Value → Except ConfigError (List Key)
  | [] => .ok []
  | a :: as =>
    match f a with
    | .error e => .error e
    | .ok b =>
      match exceptMapList f as with
      | .error e => .error e
      | .ok bs => .ok (b :: bs)

/-- Proof-level valuation of a finite model float as a rational
(infinities, never produced in the situations where this is used, get
value 0). -/
def pfRat : PyFloat → ℚ
  | .finite m u => (m : ℚ) * (2 : ℚ) ^ u
  | .inf => 0
  | .ninf => 0

/-- The model float is finite. -/
def pfIsFinite : PyFloat → Bool
  | .finite _ _ => Bool.true
  | _ => Bool.false

/-- Embedding of an actual boolean into the `signed` argument space. -/
def boolArgOf : Bool → BoolArg
  | Bool.true => .true
  | Bool.false => .false

theorem py3safeGo_length (b : Token) (l : List Token) :
    (py3safeGo b l).length = l.length + countAdjNumPairs (b :: l) := by
  induction l generalizing b with
  | nil => simp [py3safeGo, countAdjNumPairs]
  | cons a rest ih =>
    cases b <;> cases a <;>
      simp [py3safeGo, countAdjNumPairs, Token.isNum, ih] <;> omega

theorem py3safeGo_noAdj (b : Token) (l : List Token) :
    noAdjNums (b :: py3safeGo b l) = Bool.true := by
  induction l generalizing b with
  | nil => simp [py3safeGo, noAdjNums]
  | cons a rest ih =>
    cases b <;> cases a <;>
      simp [py3safeGo, noAdjNums, Token.isNum, ih]

theorem py3safeGo_sublist (b : Token) (l : List Token) :
    l.Sublist (py3safeGo b l) := by
  induction l generalizing b with
  | nil => simp [py3safeGo]
  | cons a rest ih =>
    cases b <;> cases a <;>
      first
        | exact List.Sublist.cons₂ _ (ih _)
        | exact List.Sublist.cons _ (List.Sublist.cons₂ _ (ih _))

theorem py3safeGo_of_noAdj (b : Token) (l : List Token)
    (h : noAdjNums (b :: l) = Bool.true) : py3safeGo b l = l := by
  induction l generalizing b with
  | nil => simp [py3safeGo]
  | cons a rest ih =>
    have h2 : noAdjNums (a :: rest) = Bool.true := by
      cases b <;> cases a <;> simp_all [noAdjNums, Token.isNum]
    have h1 : (b.isNum && a.isNum) = Bool.false := by
      cases b <;> cases a <;> simp_all [noAdjNums, Token.isNum]
    simp [py3safeGo, h1, ih a h2]

/-- C4: on a token sequence with exactly k adjacent Numeric-Numeric
pairs, `_py3_safe` returns exactly k more tokens, with no two Numeric
tokens adjacent, and with the input tokens kept in their original
order (the input is a subsequence of the output). -/
theorem py3Safe_count_law (l : List Token) :
    (py3Safe l).length = l.length + countAdjNumPairs l ∧
    noAdjNums (py3Safe l) = Bool.true ∧
    l.Sublist (py3Safe l) := by
  match l with
  | [] => exact ⟨rfl, rfl, List.Sublist.refl _⟩
  | [t] => exact ⟨rfl, rfl, List.Sublist.refl _⟩
  | t :: a :: rest =>
    refine ⟨?_, ?_, ?_⟩
    · simp [py3Safe, py3safeGo_length t (a :: rest), countAdjNumPairs]
      omega
    · exact py3safeGo_noAdj t (a :: rest)
    · exact List.Sublist.cons₂ _ (py3safeGo_sublist t (a :: rest))

/-- C10: `_py3_safe` is idempotent: its output has no adjacent Numeric
pair, so a second pass changes nothing. -/
theorem py3Safe_idempotent (l : List Token) : py3Safe (py3Safe l) = py3Safe l := by
  match l with
  | [] => rfl
  | [t] => rfl
  | t :: a :: rest =>
    show py3Safe (t :: py3safeGo t (a :: rest)) = t :: py3safeGo t (a :: rest)
    have hno := py3safeGo_noAdj t (a :: rest)
    match hgo : py3safeGo t (a :: rest) with
    | [] => rfl
    | c :: cs =>
      rw [hgo] at hno
      show t :: py3safeGo t (c :: cs) = t :: c :: cs
      rw [py3safeGo_of_noAdj t (c :: cs) hno]

/-- C2: with number_type None the chooser row is (int_nosign_re, int) for
either boolean value of `signed`, the same row as number_type int with
signed False; the produced key function is therefore identical, and a
leading sign character is never part of a number. -/
theorem none_numberType_eq_int_unsigned (v : Value)
    (key : Option (Value → Value)) (b : Bool) (ex : BoolArg) (safe : Bool) :
    natsortKey v key NumTypeArg.none (boolArgOf b) ex safe =
      natsortKey v key NumTypeArg.int BoolArg.false ex safe := by
  cases b <;> cases ex <;> rfl

/-- C5: `_natsort_key` raises exactly when the (number_type, signed, exp)
triple is not one of the twelve valid combinations, the raised
ConfigurationError names the first offending field, and a valid
configuration never raises on any value. -/
theorem natsortKey_error_iff_invalid_config (v : Value)
    (key : Option (Value → Value)) (nt : NumTypeArg) (sg ex : BoolArg)
    (safe : Bool) :
    (natsortKey v key nt sg ex safe).isOk = validTripleB nt sg ex ∧
    errorNamesField nt sg ex (natsortKey v key nt sg ex safe) := by
  cases nt <;> cases sg <;> cases ex <;>
    first
      | exact ⟨rfl, trivial⟩
      | exact ⟨rfl, rfl⟩
      | exact ⟨rfl, rfl, rfl⟩
      | exact ⟨rfl, rfl, rfl, rfl⟩

/-- C6 (amended): `natsort_keygen` is a bare partial application and
never fails at construction, even for an invalid triple; the
ConfigurationError surfaces only when the returned function is applied
to a value, at which point it behaves exactly as `_natsort_key`. -/
theorem keygen_defers_validation (key : Option (Value → Value))
    (nt : NumTypeArg) (sg ex : BoolArg) (safe : Bool) :
    (natsortKeygen key nt sg ex safe).isOk = Bool.true ∧
    ∀ v : Value,
      applyKeygen (natsortKeygen key nt sg ex safe) v =
        natsortKey v key nt sg ex safe :=
  ⟨rfl, fun _ => rfl⟩

/-- C6 counterexample: with the invalid number_type "str" the factory
still returns successfully, and the ConfigurationError appears only when
the returned key function is applied to a value — refuting
construction-time failure. -/
theorem keygen_no_construction_failure :
    (natsortKeygen Option.none (.invalid "str") .true .true Bool.false).isOk =
      Bool.true ∧
    applyKeygen (natsortKeygen Option.none (.invalid "str") .true .true Bool.false)
      (.vstr "a") = .error (.numberType "str") :=
  ⟨rfl, rfl⟩

/-- C9: under any valid configuration a bare number n is keyed as the
two-element tuple (Text "", n) with the value unchanged, and the key
function is total: it succeeds on every value. -/
theorem atomic_fallback_total (nt : NumTypeArg) (sg ex : BoolArg)
    (h : validTripleB nt sg ex = Bool.true) (safe : Bool) (n : NVal) :
    natsortKey (.vnum n) Option.none nt sg ex safe =
      .ok (.leaf [Token.text "", Token.num n]) ∧
    ∀ (v : Value) (key : Option (Value → Value)),
      (natsortKey v key nt sg ex safe).isOk = Bool.true := by
  cases nt <;> cases sg <;> cases ex <;>
    first
      | exact ⟨rfl, fun _ _ => rfl⟩
      | exact Bool.noConfusion h

/-- Witness for C9 at the default configuration and the bare number 10. -/
theorem atomic_fallback_total_witness :
    natsortKey (.vnum (.I 10)) Option.none .float .true .true Bool.false =
      .ok (.leaf [Token.text "", Token.num (.I 10)]) ∧
    ∀ (v : Value) (key : Option (Value → Value)),
      (natsortKey v key .float .true .true Bool.false).isOk = Bool.true :=
  atomic_fallback_total .float .true .true rfl Bool.false (.I 10)

theorem matchMantissa_ne_nil (dot : Bool) (cs m r : List Char)
    (h : matchMantissa dot cs = some (m, r)) : m ≠ [] := by
  simp only [matchMantissa] at h
  split at h
  · split at h
    · split at h
      · exact Option.noConfusion h
      · simp only [Option.some.injEq, Prod.mk.injEq] at h
        obtain ⟨h1, h2⟩ := h
        subst h1
        simp_all [List.isEmpty_iff]
    · simp only [Option.some.injEq, Prod.mk.injEq] at h
      obtain ⟨h1, h2⟩ := h
      subst h1
      simp
  · split at h
    · exact Option.noConfusion h
    · simp only [Option.some.injEq, Prod.mk.injEq] at h
      obtain ⟨h1, h2⟩ := h
      subst h1
      simp_all [List.isEmpty_iff]

theorem matchNoSign_ne_nil (p : NumRegex) (cs m r : List Char)
    (h : matchNoSign p cs = some (m, r)) : m ≠ [] := by
  simp only [matchNoSign] at h
  split at h
  · rename_i m0 r0 heq
    have hm0 := matchMantissa_ne_nil p.dot cs m0 r0 heq
    split at h
    · simp only [Option.some.injEq, Prod.mk.injEq] at h
      obtain ⟨h1, h2⟩ := h
      subst h1
      exact List.append_ne_nil_of_left_ne_nil hm0 _
    · simp only [Option.some.injEq, Prod.mk.injEq] at h
      obtain ⟨h1, h2⟩ := h
      subst h1
      exact hm0
  · exact Option.noConfusion h

theorem matchAt_ne_nil (p : NumRegex) (cs m r : List Char)
    (h : matchAt p cs = some (m, r)) : m ≠ [] := by
  simp only [matchAt] at h
  split at h
  · split at h
    · split at h
      · simp only [Option.some.injEq, Prod.mk.injEq] at h
        obtain ⟨h1, h2⟩ := h
        subst h1
        simp
      · exact Option.noConfusion h
    · exact matchNoSign_ne_nil p _ m r h
  · exact matchNoSign_ne_nil p _ m r h

theorem matchMantissa_none_of_noDigit (dot : Bool) (cs : List Char)
    (hd : ∀ c ∈ cs, isDigitC c = Bool.false) : matchMantissa dot cs = Option.none := by
  have ht : cs.takeWhile isDigitC = [] := by
    cases cs with
    | nil => rfl
    | cons c rest =>
      exact List.takeWhile_cons_of_neg (by simp [hd c (by simp)])
  have hr : cs.dropWhile isDigitC = cs := by
    cases cs with
    | nil => rfl
    | cons c rest =>
      exact List.dropWhile_cons_of_neg (by simp [hd c (by simp)])
  simp only [matchMantissa, ht, hr]
  split
  · rename_i r2
    have ht2 : r2.takeWhile isDigitC = [] := by
      cases r2 with
      | nil => rfl
      | cons b rest =>
        refine List.takeWhile_cons_of_neg ?_
        have hb : isDigitC b = Bool.false :=
          hd b (List.mem_cons_of_mem _ (List.mem_cons_self _ _))
        simp [hb]
    simp [ht2]
  · simp

theorem matchNoSign_none_of_noDigit (p : NumRegex) (cs : List Char)
    (hd : ∀ c ∈ cs, isDigitC c = Bool.false) : matchNoSign p cs = Option.none := by
  simp [matchNoSign, matchMantissa_none_of_noDigit p.dot cs hd]

theorem matchAt_none_of_noDigit (p : NumRegex) (cs : List Char)
    (hd : ∀ c ∈ cs, isDigitC c = Bool.false) : matchAt p cs = Option.none := by
  have hns := matchNoSign_none_of_noDigit p cs hd
  cases hp : p.sign with
  | false =>
    cases cs <;> simp only [matchAt, hp] <;> exact hns
  | true =>
    cases cs with
    | nil => simp only [matchAt, hp]; exact hns
    | cons c rest =>
      simp only [matchAt, hp]
      split
      · rw [matchNoSign_none_of_noDigit p rest
          (fun x hx => hd x (List.mem_cons_of_mem _ hx))]
      · exact hns

theorem splitGo_noMatch (p : NumRegex) (cs : List Char)
    (hd : ∀ c ∈ cs, isDigitC c = Bool.false) :
    ∀ (fuel : Nat) (pre : List Char),
      splitGo p fuel pre cs = [pre.reverse ++ cs] := by
  induction cs with
  | nil =>
    intro fuel pre
    cases fuel <;> simp [splitGo]
  | cons c rest ih =>
    intro fuel pre
    cases fuel with
    | zero => rfl
    | succ fuel =>
      have hm := matchAt_none_of_noDigit p (c :: rest) hd
      rw [splitGo, hm]
      rw [ih (fun x hx => hd x (List.mem_cons_of_mem _ hx)) fuel (c :: pre)]
      simp

theorem numberFinder_noDigit (s : String)
    (hd : ∀ c ∈ s.data, isDigitC c = Bool.false) (p : NumRegex) (conv : NumConv)
    (safe : Bool) : numberFinder s p conv safe = [Token.text s] := by
  unfold numberFinder regexSplit
  rw [splitGo_noMatch p s.data hd s.data.length []]
  rfl

/-- C8: when the selected pattern finds no match in the string — here for
every string without an ASCII digit, the only strings none of the six
patterns match, the empty string included — the key is the single-element
tuple holding the original string as its only Text token. -/
theorem no_match_single_text_token (s : String) (nt : NumTypeArg)
    (sg ex : BoolArg) (h : validTripleB nt sg ex = Bool.true) (safe : Bool)
    (hd : ∀ c ∈ s.data, isDigitC c = Bool.false) :
    natsortKey (.vstr s) Option.none nt sg ex safe = .ok (.leaf [Token.text s]) := by
  cases nt <;> cases sg <;> cases ex <;>
    first
      | exact Bool.noConfusion h
      | simp [natsortKey, regex_and_num_function_chooser, natsortKeyAux,
          numberFinder_noDigit s hd]

/-- Witness for C8: the digit-free string "abc" under the default
configuration. -/
theorem no_match_single_text_token_witness :
    natsortKey (.vstr "abc") Option.none .float .true .true Bool.false =
      .ok (.leaf [Token.text "abc"]) :=
  no_match_single_text_token "abc" .float .true .true rfl Bool.false (by decide)

theorem splitGo_exists_ne_nil (p : NumRegex) :
    ∀ (fuel : Nat) (pre cs : List Char),
      (splitGo p fuel pre cs).length ≠ 1 →
      ∃ x ∈ splitGo p fuel pre cs, x ≠ [] := by
  intro fuel
  induction fuel with
  | zero =>
    intro pre cs h
    cases cs <;> exact absurd rfl h
  | succ fuel ih =>
    intro pre cs h
    cases cs with
    | nil => exact absurd rfl h
    | cons c rest =>
      rw [splitGo] at h ⊢
      cases hm : matchAt p (c :: rest) with
      | none =>
        rw [hm] at h
        exact ih (c :: pre) rest h
      | some mr =>
        obtain ⟨m, r⟩ := mr
        exact ⟨m, List.mem_cons_of_mem _ (List.mem_cons_self _ _),
          matchAt_ne_nil p (c :: rest) m r hm⟩

theorem py3Safe_cons (t : Token) (rest : List Token) :
    ∃ r2, py3Safe (t :: rest) = t :: r2 := by
  cases rest with
  | nil => exact ⟨[], rfl⟩
  | cons a l => exact ⟨py3safeGo t (a :: l), rfl⟩

theorem numberFinder_head (s : String) (p : NumRegex) (conv : NumConv)
    (safe : Bool) :
    ∃ t rest, numberFinder s p conv safe = Token.text t :: rest := by
  unfold numberFinder
  by_cases hlen : (regexSplit p s.data).length = 1
  · obtain ⟨a, ha⟩ := List.length_eq_one.mp hlen
    rw [if_pos hlen, ha]
    exact ⟨String.mk a, [], rfl⟩
  · rw [if_neg hlen]
    obtain ⟨x, hx, hxne⟩ := splitGo_exists_ne_nil p s.data.length [] s.data hlen
    have hmem : x ∈ (regexSplit p s.data).filter (fun y => !y.isEmpty) :=
      List.mem_filter.mpr ⟨hx, by simp [List.isEmpty_iff, hxne]⟩
    have hne : ((regexSplit p s.data).filter (fun y => !y.isEmpty)).map
        (convertPiece p conv) ≠ [] := by
      intro hcontra
      rw [List.map_eq_nil_iff] at hcontra
      rw [hcontra] at hmem
      exact List.not_mem_nil x hmem
    cases htoks : ((regexSplit p s.data).filter (fun y => !y.isEmpty)).map
        (convertPiece p conv) with
    | nil => exact absurd htoks hne
    | cons t0 ts =>
      cases t0 with
      | num v =>
        cases safe with
        | true =>
          obtain ⟨r2, hr2⟩ := py3Safe_cons (Token.text "") (Token.num v :: ts)
          exact ⟨"", r2, hr2⟩
        | false => exact ⟨"", Token.num v :: ts, rfl⟩
      | text t0s =>
        cases safe with
        | true =>
          obtain ⟨r2, hr2⟩ := py3Safe_cons (Token.text t0s) ts
          exact ⟨t0s, r2, hr2⟩
        | false => exact ⟨t0s, ts, rfl⟩

mutual

theorem natsortKeyAux_headText (p : NumRegex) (conv : NumConv) (safe : Bool) :
    ∀ v : Value, keyHeadText (natsortKeyAux p conv safe v) = Bool.true
  | .vstr s => by
    obtain ⟨t, rest, he⟩ := numberFinder_head s p conv safe
    show keyHeadText (.leaf (numberFinder s p conv safe)) = Bool.true
    rw [he]
    rfl
  | .vnum n => rfl
  | .vseq l => natsortKeyAuxList_headText p conv safe l

theorem natsortKeyAuxList_headText (p : NumRegex) (conv : NumConv) (safe : Bool) :
    ∀ l : List Value, keyHeadTextList (natsortKeyAuxList p conv safe l) = Bool.true
  | [] => rfl
  | v :: vs => by
    show (keyHeadText (natsortKeyAux p conv safe v) &&
      keyHeadTextList (natsortKeyAuxList p conv safe vs)) = Bool.true
    rw [natsortKeyAux_headText p conv safe v,
      natsortKeyAuxList_headText p conv safe vs]
    rfl

end

/-- C3: every key the generator accepts an input for satisfies the
leading-Text invariant, read recursively: a token tuple starts with a
(possibly empty) Text token, and every sub-key of a key built from a
nested sequence satisfies the same invariant. -/
theorem key_head_is_text (v : Value) (key : Option (Value → Value))
    (nt : NumTypeArg) (sg ex : BoolArg) (safe : Bool) (k : Key)
    (h : natsortKey v key nt sg ex safe = .ok k) : keyHeadText k = Bool.true := by
  cases nt <;> cases sg <;> cases ex <;>
    first
      | exact Except.noConfusion h
      | (injection h with h2; exact h2 ▸ natsortKeyAux_headText _ _ _ _)

/-- Witness for C3 at the string "num2" under the int configuration. -/
theorem key_head_is_text_witness :
    keyHeadText (.leaf [Token.text "num", Token.num (.I 2)]) = Bool.true :=
  key_head_is_text (.vstr "num2") Option.none .int .true .true Bool.false _ rfl

theorem natsortKeyAuxList_eq_map (p : NumRegex) (conv : NumConv) (safe : Bool)
    (l : List Value) :
    natsortKeyAuxList p conv safe l = l.map (natsortKeyAux p conv safe) := by
  induction l with
  | nil => rfl
  | cons v vs ih => simp [natsortKeyAuxList, ih]

theorem exceptMapList_natsortKey (nt : NumTypeArg) (sg ex : BoolArg)
    (safe : Bool) (regex : NumRegex) (conv : NumConv)
    (hc : regex_and_num_function_chooser nt sg ex = some (regex, conv))
    (l : List Value) :
    exceptMapList (fun x => natsortKey x Option.none nt sg ex safe) l =
      .ok (l.map (natsortKeyAux regex conv safe)) := by
  induction l with
  | nil => rfl
  | cons v vs ih =>
    have hv : natsortKey v Option.none nt sg ex safe =
        .ok (natsortKeyAux regex conv safe v) := by
      unfold natsortKey
      rw [hc]
    simp [exceptMapList, hv, ih]

/-- C7: the pre-transform key function acts on the top-level value only:
keying v with key function f equals keying f v with no key function, and
the key of a sequence is the tuple of the keys of its elements, each
element keyed with no key function under the same configuration. -/
theorem key_applied_top_level_only (f : Value → Value) (nt : NumTypeArg)
    (sg ex : BoolArg) (h : validTripleB nt sg ex = Bool.true) (safe : Bool)
    (v : Value) (l : List Value) :
    natsortKey v (some f) nt sg ex safe =
      natsortKey (f v) Option.none nt sg ex safe ∧
    natsortKey (.vseq l) Option.none nt sg ex safe =
      Except.map Key.node
        (exceptMapList (fun x => natsortKey x Option.none nt sg ex safe) l) := by
  cases nt <;> cases sg <;> cases ex <;>
    first
      | exact Bool.noConfusion h
      | (refine ⟨rfl, ?_⟩
         rw [exceptMapList_natsortKey _ _ _ safe _ _ ?hc l]
         case hc => rfl
         simp [natsortKey, regex_and_num_function_chooser, natsortKeyAux,
           natsortKeyAuxList_eq_map, Except.map])

/-- Witness for C7 with a constant pre-transform and a two-element
sequence under the int configuration. -/
theorem key_applied_top_level_only_witness :
    natsortKey (.vnum (.I 1)) (some fun _ => Value.vstr "x") .int .true .true
        Bool.false =
      natsortKey (.vstr "x") Option.none .int .true .true Bool.false ∧
    natsortKey (.vseq [.vstr "a1", .vnum (.I 5)]) Option.none .int .true .true
        Bool.false =
      Except.map Key.node
        (exceptMapList (fun x => natsortKey x Option.none .int .true .true Bool.false)
          [.vstr "a1", .vnum (.I 5)]) :=
  key_applied_top_level_only (fun _ => Value.vstr "x") .int .true .true rfl
    Bool.false (.vnum (.I 1)) [.vstr "a1", .vnum (.I 5)]

theorem natLog2F_bounds :
    ∀ (fuel m : Nat), 1 ≤ m → m ≤ fuel →
      2 ^ natLog2F fuel m ≤ m ∧ m < 2 ^ (natLog2F fuel m + 1) := by
  intro fuel
  induction fuel with
  | zero => intro m h1 h2; omega
  | succ fuel ih =>
    intro m h1 h2
    by_cases hm : 2 ≤ m
    · have hrec := ih (m / 2) (by omega) (by omega)
      rw [natLog2F, if_pos hm]
      set k := natLog2F fuel (m / 2) with hk
      constructor
      · rw [pow_succ]
        have := hrec.1
        omega
      · rw [pow_succ]
        have := hrec.2
        omega
    · rw [natLog2F, if_neg hm]
      simp
      omega

theorem natLog2_bounds (n : Nat) (h : 1 ≤ n) :
    2 ^ natLog2 n ≤ n ∧ n < 2 ^ (natLog2 n + 1) :=
  natLog2F_bounds n n h le_rfl

theorem natLog2_one : natLog2 1 = 0 := rfl

theorem floorLog2Q_of_one (n : Nat) (h : 1 ≤ n) :
    floorLog2Q n 1 = (natLog2 n : Int) := by
  have hlo := (natLog2_bounds n h).1
  have hq : qle ((natLog2 n : Int) - (natLog2 1 : Int)) n 1 = Bool.true := by
    unfold qle
    rw [natLog2_one]
    simp only [Nat.cast_zero, sub_zero, Int.natCast_nonneg, if_true, mul_one,
      Int.toNat_natCast, decide_eq_true_eq]
    exact hlo
  unfold floorLog2Q
  rw [if_pos hq, natLog2_one]
  simp

theorem rhe_one (n : Nat) : rhe n 1 = n := by
  unfold rhe
  simp [Nat.mod_one]

theorem pyFloatRound_int_exact (neg : Bool) (N : Nat) (h53 : N ≤ 2 ^ 53) :
    pfIsFinite (pyFloatRound neg N 1) = Bool.true ∧
    pfRat (pyFloatRound neg N 1) = (if neg then -(N : ℚ) else (N : ℚ)) := by
  by_cases h0 : N = 0
  · subst h0
    refine ⟨rfl, ?_⟩
    cases neg <;> simp [pyFloatRound, pfRat]
  · have h1 : 1 ≤ N := Nat.one_le_iff_ne_zero.mpr h0
    obtain ⟨hlo, hhi⟩ := natLog2_bounds N h1
    have hfl : floorLog2Q N 1 = (natLog2 N : Int) := floorLog2Q_of_one N h1
    set e : Nat := natLog2 N with hedef
    have he53 : e ≤ 53 := by
      by_contra hc
      push_neg at hc
      have h2 : (2:Nat) ^ 54 ≤ 2 ^ e := Nat.pow_le_pow_right (by norm_num) hc
      have h3 : (2:Nat) ^ 54 ≤ 2 ^ 53 := le_trans (le_trans h2 hlo) h53
      norm_num at h3
    rcases (by omega : e ≤ 52 ∨ e = 53) with he52 | he53'
    · -- exactly representable: the scaled mantissa is an integer
      have hU : max (floorLog2Q N 1 - 52) (-1074) = (e : Int) - 52 := by
        rw [hfl]
        exact max_eq_left (by omega)
      have hnegu : (-((e : Int) - 52)).toNat = 52 - e := by omega
      have hposu : ((e : Int) - 52).toNat = 0 := by omega
      have hroundPos : roundPos N 1 = (N * 2 ^ (52 - e), (e : Int) - 52) := by
        simp only [roundPos, hU, hnegu, hposu, pow_zero, mul_one, one_mul, rhe_one]
      have hN1024 : N < 2 ^ 1024 := lt_of_le_of_lt h53 (by norm_num)
      have hovf : overflows (N * 2 ^ (52 - e)) ((e : Int) - 52) = Bool.false := by
        simp only [overflows, hnegu, hposu, pow_zero, mul_one,
          decide_eq_false_iff_not]
        exact Nat.not_le.mpr
          ((Nat.mul_lt_mul_right (Nat.pos_pow_of_pos _ (by norm_num))).mpr hN1024)
      have hfinal : pyFloatRound neg N 1 =
          .finite (if neg then -((N * 2 ^ (52 - e) : Nat) : Int)
            else ((N * 2 ^ (52 - e) : Nat) : Int)) ((e : Int) - 52) := by
        simp only [pyFloatRound, h0, if_false, hroundPos, hovf]
        rfl
      have hkey : ((N * 2 ^ (52 - e) : Nat) : ℚ) * (2:ℚ) ^ ((e : Int) - 52) =
          (N : ℚ) := by
        push_cast
        rw [mul_assoc, ← zpow_natCast (2:ℚ) (52 - e),
          ← zpow_add₀ (by norm_num : (2:ℚ) ≠ 0),
          show (((52 - e : Nat) : Int) + ((e : Int) - 52)) = 0 by omega]
        simp
      refine ⟨by rw [hfinal]; rfl, ?_⟩
      rw [hfinal]
      cases neg
      · simpa [pfRat] using hkey
      · simp only [pfRat, if_true, Int.cast_neg, Int.cast_natCast, neg_mul]
        rw [hkey]
    · -- e = 53 forces N = 2^53, the largest exactly representable power
      have hN : N = 2 ^ 53 := by
        refine le_antisymm h53 ?_
        calc (2:Nat) ^ 53 = 2 ^ e := by rw [he53']
        _ ≤ N := hlo
      rw [hN]
      cases neg
      · have hcomp : pyFloatRound Bool.false (2 ^ 53) 1 =
            .finite 4503599627370496 1 := by decide
        refine ⟨by rw [hcomp]; rfl, ?_⟩
        rw [hcomp]
        show ((4503599627370496 : Int) : ℚ) * (2:ℚ) ^ (1 : Int) = ((2 ^ 53 : Nat) : ℚ)
        rw [zpow_one]
        norm_num
      · have hcomp : pyFloatRound Bool.true (2 ^ 53) 1 =
            .finite (-4503599627370496) 1 := by decide
        refine ⟨by rw [hcomp]; rfl, ?_⟩
        rw [hcomp]
        show ((-4503599627370496 : Int) : ℚ) * (2:ℚ) ^ (1 : Int) =
          -((2 ^ 53 : Nat) : ℚ)
        rw [zpow_one]
        norm_num

theorem scaled_cast (m u s : Int) (hsu : s ≤ u) :
    ((m * 2 ^ (u - s).toNat : Int) : ℚ) = (m : ℚ) * (2:ℚ) ^ u * (2:ℚ) ^ (-s) := by
  push_cast
  rw [← zpow_natCast (2:ℚ) (u - s).toNat, Int.toNat_of_nonneg (by omega),
    mul_assoc, ← zpow_add₀ (by norm_num : (2:ℚ) ≠ 0)]
  rw [show u + -s = u - s by ring]

theorem pfLtB_finite_iff (m1 u1 m2 u2 : Int) :
    pfLtB (.finite m1 u1) (.finite m2 u2) = Bool.true ↔
      (m1 : ℚ) * (2:ℚ) ^ u1 < (m2 : ℚ) * (2:ℚ) ^ u2 := by
  show decide (m1 * 2 ^ (u1 - min u1 u2).toNat < m2 * 2 ^ (u2 - min u1 u2).toNat) =
      Bool.true ↔ _
  rw [decide_eq_true_iff]
  rw [show (m1 * 2 ^ (u1 - min u1 u2).toNat < m2 * 2 ^ (u2 - min u1 u2).toNat) ↔
      ((m1 * 2 ^ (u1 - min u1 u2).toNat : Int) : ℚ) <
        ((m2 * 2 ^ (u2 - min u1 u2).toNat : Int) : ℚ) from Int.cast_lt.symm]
  rw [scaled_cast m1 u1 (min u1 u2) (min_le_left u1 u2),
    scaled_cast m2 u2 (min u1 u2) (min_le_right u1 u2)]
  exact mul_lt_mul_right (zpow_pos (by norm_num) _)

theorem pfEqB_finite_iff (m1 u1 m2 u2 : Int) :
    pfEqB (.finite m1 u1) (.finite m2 u2) = Bool.true ↔
      (m1 : ℚ) * (2:ℚ) ^ u1 = (m2 : ℚ) * (2:ℚ) ^ u2 := by
  show decide (m1 * 2 ^ (u1 - min u1 u2).toNat = m2 * 2 ^ (u2 - min u1 u2).toNat) =
      Bool.true ↔ _
  rw [decide_eq_true_iff]
  rw [show (m1 * 2 ^ (u1 - min u1 u2).toNat = m2 * 2 ^ (u2 - min u1 u2).toNat) ↔
      ((m1 * 2 ^ (u1 - min u1 u2).toNat : Int) : ℚ) =
        ((m2 * 2 ^ (u2 - min u1 u2).toNat : Int) : ℚ) from Int.cast_inj.symm]
  rw [scaled_cast m1 u1 (min u1 u2) (min_le_left u1 u2),
    scaled_cast m2 u2 (min u1 u2) (min_le_right u1 u2)]
  exact mul_left_inj' (by positivity)

theorem keyLt_float_pair (mx ux my uy : Int) :
    (keyLt (.leaf [Token.text "", Token.num (.F (.finite mx ux))])
           (.leaf [Token.text "", Token.num (.F (.finite my uy))]) =
        some Bool.true ↔
      (mx : ℚ) * (2:ℚ) ^ ux < (my : ℚ) * (2:ℚ) ^ uy) := by
  by_cases heq : pfEqB (.finite mx ux) (.finite my uy) = Bool.true
  · have hveq := (pfEqB_finite_iff mx ux my uy).mp heq
    have hred : keyLt (.leaf [Token.text "", Token.num (.F (.finite mx ux))])
        (.leaf [Token.text "", Token.num (.F (.finite my uy))]) =
          some Bool.false := by
      show tokListLt _ _ = some Bool.false
      simp [tokListLt, tokEq, nvalEq, heq]
    rw [hred, hveq]
    simp
  · simp only [Bool.not_eq_true] at heq
    have hred : keyLt (.leaf [Token.text "", Token.num (.F (.finite mx ux))])
        (.leaf [Token.text "", Token.num (.F (.finite my uy))]) =
          some (pfLtB (.finite mx ux) (.finite my uy)) := by
      show tokListLt _ _ = _
      simp [tokListLt, tokEq, nvalEq, heq, tokLt, nvalLt]
    rw [hred]
    rw [show (some (pfLtB (.finite mx ux) (.finite my uy)) = some Bool.true) ↔
      (pfLtB (.finite mx ux) (.finite my uy) = Bool.true) from Option.some_inj]
    exact pfLtB_finite_iff mx ux my uy

theorem matchMantissa_allDigits (dot : Bool) (cs : List Char) (hne : cs ≠ [])
    (hall : ∀ c ∈ cs, isDigitC c = Bool.true) :
    matchMantissa dot cs = some (cs, []) := by
  have ht : cs.takeWhile isDigitC = cs := List.takeWhile_eq_self_iff.mpr hall
  have hr : cs.dropWhile isDigitC = [] := List.dropWhile_eq_nil_iff.mpr hall
  cases dot <;> simp [matchMantissa, ht, hr, List.isEmpty_iff, hne]

theorem matchNoSign_allDigits (p : NumRegex) (cs : List Char) (hne : cs ≠ [])
    (hall : ∀ c ∈ cs, isDigitC c = Bool.true) :
    matchNoSign p cs = some (cs, []) := by
  simp only [matchNoSign, matchMantissa_allDigits p.dot cs hne hall]
  cases hexp : p.exp <;> simp [matchExpPart]

theorem matchAt_intString (cs : List Char) (h : isIntChars cs = Bool.true) :
    matchAt float_sign_exp_re cs = some (cs, []) := by
  cases cs with
  | nil => exact Bool.noConfusion h
  | cons c rest =>
    by_cases hs : c = '+' ∨ c = '-'
    · simp only [isIntChars, if_pos hs, Bool.and_eq_true, List.all_eq_true] at h
      have hrne : rest ≠ [] := by
        intro hc
        rw [hc] at h
        simp at h
      simp only [matchAt, float_sign_exp_re]
      rw [if_pos hs, matchNoSign_allDigits _ rest hrne h.2]
    · have hall : ∀ x ∈ c :: rest, isDigitC x = Bool.true := by
        simp only [isIntChars, if_neg hs, List.all_eq_true] at h
        exact h
      simp only [matchAt, float_sign_exp_re]
      rw [if_neg hs]
      exact matchNoSign_allDigits _ (c :: rest) (by simp) hall

theorem splitGo_nil (p : NumRegex) (fuel : Nat) (pre : List Char) :
    splitGo p fuel pre [] = [pre.reverse] := by
  cases fuel <;> rfl

theorem regexSplit_fullMatch (p : NumRegex) (cs : List Char) (hne : cs ≠ [])
    (hm : matchAt p cs = some (cs, [])) : regexSplit p cs = [[], cs, []] := by
  cases cs with
  | nil => exact absurd rfl hne
  | cons c rest =>
    show splitGo p (rest.length + 1) [] (c :: rest) = _
    rw [splitGo, hm]
    simp [splitGo_nil]

theorem numberFinder_fullMatch (s : String) (conv : NumConv)
    (hne : s.data ≠ []) (hm : matchAt float_sign_exp_re s.data = some (s.data, [])) :
    numberFinder s float_sign_exp_re conv Bool.false =
      [Token.text "", Token.num (applyConv conv (String.mk s.data))] := by
  unfold numberFinder
  rw [regexSplit_fullMatch _ _ hne hm]
  rw [if_neg (by simp)]
  have hF : s.data.isEmpty = Bool.false := by
    simp [List.isEmpty_iff, hne]
  simp [convertPiece, hm, leadGuard, hF, List.filter]

theorem defaultKey_intString (a : String) (ha : isIntChars a.data = Bool.true) :
    defaultKeyOf a =
      .ok (.leaf [Token.text "", Token.num (.F (pyFloatOfChars a.data))]) := by
  have hne : a.data ≠ [] := by
    intro hc
    rw [hc] at ha
    exact Bool.noConfusion ha
  have hm := matchAt_intString a.data ha
  show Except.ok (Key.leaf (numberFinder a float_sign_exp_re NumConv.float Bool.false)) =
    Except.ok (Key.leaf [Token.text "", Token.num (NVal.F (pyFloatOfChars a.data))])
  rw [numberFinder_fullMatch a NumConv.float hne hm]
  rfl

theorem pyFloatOfChars_intString (cs : List Char) (h : isIntChars cs = Bool.true) :
    ∃ (neg : Bool) (N : Nat), pyFloatOfChars cs = pyFloatRound neg N 1 ∧
      pyIntOfChars cs = (if neg then -(N : Int) else (N : Int)) ∧
      (pyIntOfChars cs).natAbs = N := by
  cases cs with
  | nil => exact Bool.noConfusion h
  | cons c rest =>
    by_cases hs : c = '+' ∨ c = '-'
    · simp only [isIntChars, if_pos hs, Bool.and_eq_true, List.all_eq_true] at h
      have ht : rest.takeWhile isDigitC = rest := List.takeWhile_eq_self_iff.mpr h.2
      have hr : rest.dropWhile isDigitC = [] := List.dropWhile_eq_nil_iff.mpr h.2
      rcases hs with hp | hmn
      · subst hp
        refine ⟨Bool.false, digitsToNat rest, ?_, ?_, ?_⟩
        · have hparse : parseFloatChars ('+' :: rest) =
              (Bool.false, digitsToNat rest, 0, 0) := by
            simp [parseFloatChars, parseSign, ht, hr, parseExpChars]
          simp [pyFloatOfChars, hparse]
        · simp [pyIntOfChars]
        · simp [pyIntOfChars]
      · subst hmn
        refine ⟨Bool.true, digitsToNat rest, ?_, ?_, ?_⟩
        · have hparse : parseFloatChars ('-' :: rest) =
              (Bool.true, digitsToNat rest, 0, 0) := by
            simp [parseFloatChars, parseSign, ht, hr, parseExpChars]
          simp [pyFloatOfChars, hparse]
        · simp [pyIntOfChars]
        · simp [pyIntOfChars]
    · simp only [isIntChars, if_neg hs, List.all_eq_true] at h
      have ht : (c :: rest).takeWhile isDigitC = c :: rest :=
        List.takeWhile_eq_self_iff.mpr h
      have hr : (c :: rest).dropWhile isDigitC = [] :=
        List.dropWhile_eq_nil_iff.mpr h
      have hcm : c ≠ '-' := fun hc => hs (Or.inr hc)
      have hcp : c ≠ '+' := fun hc => hs (Or.inl hc)
      refine ⟨Bool.false, digitsToNat (c :: rest), ?_, ?_, ?_⟩
      · have hparse : parseFloatChars (c :: rest) =
            (Bool.false, digitsToNat (c :: rest), 0, 0) := by
          simp [parseFloatChars, parseSign, hcm, hcp, ht, hr, parseExpChars]
        simp [pyFloatOfChars, hparse]
      · simp [pyIntOfChars, hcm, hcp]
      · simp [pyIntOfChars, hcm, hcp]

/-- C1 (amended): under the default configuration the key order of two
decimal integer strings agrees with their integer order whenever both
magnitudes are at most 2^53, the range in which binary64 floats represent
integers exactly; beyond it float conversion can collapse distinct
integers. -/
theorem intString_key_order_iff (a b : String)
    (ha : isIntChars a.data = Bool.true) (hb : isIntChars b.data = Bool.true)
    (ha53 : (pyIntOfString a).natAbs ≤ 2 ^ 53)
    (hb53 : (pyIntOfString b).natAbs ≤ 2 ^ 53) :
    (exceptKeyLt (defaultKeyOf a) (defaultKeyOf b) = some Bool.true ↔
      pyIntOfString a < pyIntOfString b) := by
  obtain ⟨nga, Na, hfa, hia, habsa⟩ := pyFloatOfChars_intString a.data ha
  obtain ⟨ngb, Nb, hfb, hib, habsb⟩ := pyFloatOfChars_intString b.data hb
  have hNa53 : Na ≤ 2 ^ 53 := by
    have h2 : (pyIntOfChars a.data).natAbs ≤ 2 ^ 53 := ha53
    rw [habsa] at h2
    exact h2
  have hNb53 : Nb ≤ 2 ^ 53 := by
    have h2 : (pyIntOfChars b.data).natAbs ≤ 2 ^ 53 := hb53
    rw [habsb] at h2
    exact h2
  obtain ⟨hfina, hvala⟩ := pyFloatRound_int_exact nga Na hNa53
  obtain ⟨hfinb, hvalb⟩ := pyFloatRound_int_exact ngb Nb hNb53
  cases hxa : pyFloatRound nga Na 1 with
  | inf => rw [hxa] at hfina; exact Bool.noConfusion hfina
  | ninf => rw [hxa] at hfina; exact Bool.noConfusion hfina
  | finite mx ux =>
  cases hxb : pyFloatRound ngb Nb 1 with
  | inf => rw [hxb] at hfinb; exact Bool.noConfusion hfinb
  | ninf => rw [hxb] at hfinb; exact Bool.noConfusion hfinb
  | finite my uy =>
  rw [hxa] at hvala
  rw [hxb] at hvalb
  have hva : (mx : ℚ) * (2:ℚ) ^ ux = ((pyIntOfChars a.data : Int) : ℚ) := by
    have hv : pfRat (.finite mx ux) = (if nga then -(Na : ℚ) else (Na : ℚ)) := hvala
    rw [hia]
    cases nga <;> simpa [pfRat] using hv
  have hvb : (my : ℚ) * (2:ℚ) ^ uy = ((pyIntOfChars b.data : Int) : ℚ) := by
    have hv : pfRat (.finite my uy) = (if ngb then -(Nb : ℚ) else (Nb : ℚ)) := hvalb
    rw [hib]
    cases ngb <;> simpa [pfRat] using hv
  have hka : defaultKeyOf a =
      .ok (.leaf [Token.text "", Token.num (.F (.finite mx ux))]) := by
    rw [defaultKey_intString a ha, hfa, hxa]
  have hkb : defaultKeyOf b =
      .ok (.leaf [Token.text "", Token.num (.F (.finite my uy))]) := by
    rw [defaultKey_intString b hb, hfb, hxb]
  rw [hka, hkb]
  show keyLt (.leaf [Token.text "", Token.num (.F (.finite mx ux))])
      (.leaf [Token.text "", Token.num (.F (.finite my uy))]) = some Bool.true ↔ _
  rw [keyLt_float_pair mx ux my uy, hva, hvb]
  exact Int.cast_lt

/-- Witness for C1 at the digit-length pair "9" and "10". -/
theorem intString_key_order_iff_witness :
    (exceptKeyLt (defaultKeyOf "9") (defaultKeyOf "10") = some Bool.true ↔
      pyIntOfString "9" < pyIntOfString "10") :=
  intString_key_order_iff "9" "10" rfl rfl (by decide) (by decide)

/-- C1 counterexample: the integer strings 2^53 and 2^53 + 1 are distinct
as integers but convert to the same binary64 float, so the generated keys
compare equal and the claimed equivalence with integer order fails. -/
theorem intString_key_order_counterexample :
    ¬ (exceptKeyLt (defaultKeyOf "9007199254740992")
          (defaultKeyOf "9007199254740993") = some Bool.true ↔
        pyIntOfString "9007199254740992" < pyIntOfString "9007199254740993") := by
  decide

end Natsort
